import Mathlib

/-!
Artifact metadata model of the deployments service.

A shallow embedding of `model/image.go` (the `ImageMeta`, `ArtifactMeta` and
`Image` records with their `Validate`, `MarshalBSON` and `MarshalBSONValue`
methods) and of the releases list endpoint exercised by
`resources/releases/controller/releases_test.go`.

Conventions of the embedding:

* a Go method with a pointer receiver that may write through the receiver is a
  function returning the receiver after the call together with the Go results;
* a Go `(value, error)` result of a method of `image.go` is a pair of options
  (`none` is Go's `nil`);
* a Go `string` is a `String`, and `len` of it is its size in bytes;
* a Go slice is a `List` (a nil slice and a slice of length zero are both `[]`:
  `len`, `range` and reflection's `Len` do not tell them apart);
* a Go pointer that may be nil is an `Option`;
* a Go `map[string]T` that may be nil is an `Option` of an association list with
  pairwise distinct keys.
-/

namespace Deployments

/-! ## Values stored in a dependency map -/

/-- Scalar values an `interface{}` of the dependency map may hold. -/
inductive Scalar where
  | str (s : String)
  | num (n : Int)
  | bool (b : Bool)
  deriving DecidableEq, Repr

/-- Dynamic values of `map[string]interface{}`: a scalar, a slice of values, or a
nested mapping. -/
inductive Value where
  | scalar (s : Scalar)
  | list (xs : List Value)
  | map (entries : List (String × Value))

/-- The value an `interface{}` holds after it is assigned a `[]string`. -/
def Value.ofStrings (xs : List String) : Value :=
  Value.list (xs.map (fun s => Value.scalar (Scalar.str s)))

/-- A non-nil Go `map[string]interface{}`: association list without duplicate
keys. -/
abbrev GoMap := AList (fun _ : String => Value)

/-- The Go statement `m[k] = v` on a non-nil map. -/
def GoMap.set (m : GoMap) (k : String) (v : Value) : GoMap := AList.insert k v m

/-- The Go expression `m[k]` (with the `ok` flag folded into the option). -/
def GoMap.get (m : GoMap) (k : String) : Option Value := AList.lookup k m

/-- The Go call `make(map[string]interface{})`. -/
def GoMap.make : GoMap := ∅

/-! ## Errors -/

/-- One violated rule: the field and the identifier of the rule. -/
structure FieldError where
  field : String
  rule : String
  deriving DecidableEq, Repr

/-- The Go `error` values that occur in the model. -/
inductive GoError where
  | validation (violations : List FieldError)
  | indexing (key : String)
  | encoding (msg : String)
  | store (msg : String)
  deriving DecidableEq, Repr

/-! ## Records of `model/image.go` -/

/-- Information provided by the user. -/
structure ImageMeta where
  Description : String
  deriving DecidableEq, Repr

/-- Structure with artifact version information. -/
structure ArtifactInfo where
  Format : String
  Version : Nat
  deriving DecidableEq, Repr

/-- Information provided by the Mender Artifact header.  The element type `U` of
`Updates` (the type `Update`, declared outside `image.go`) is a parameter. -/
structure ArtifactMeta (U : Type) where
  Name : String
  DeviceTypesCompatible : List String
  Info : Option ArtifactInfo
  Signed : Bool
  Updates : List U
  Provides : Option (List (String × String))
  Depends : Option GoMap

/-- Image record: identifier, the two embedded field sets, size and last
modification time (`*time.Time`, as an optional instant). -/
structure Image (U : Type) where
  Id : String
  ImageMeta : Option ImageMeta
  ArtifactMeta : Option (ArtifactMeta U)
  Size : Int
  Modified : Option Nat

/-! ## Validation by struct tags (`govalidator.ValidateStruct`) -/

/-- Go `len(s)` of a string: its length in bytes. -/
def goLen (s : String) : Nat := s.utf8ByteSize

/-- The tag option `length(lo|hi)`: the byte length lies in `[lo, hi]`. -/
def byteLength (s : String) (lo hi : Nat) : Bool :=
  decide (lo ≤ goLen s) && decide (goLen s ≤ hi)

/-- Modelled from the spec: the check of one string under the tag
`length(1|4096),required` (`govalidator` is a library outside the repository; the
rule is the spec's "required-field presence, string length bounds (1–4096 where
specified)"): an empty value violates `required`, a non-empty one is checked
against the length bound. -/
def checkRequiredLength (field : String) (s : String) : List FieldError :=
  if goLen s = 0 then [⟨field, "required"⟩]
  else if byteLength s 1 4096 then []
  else [⟨field, "length(1|4096)"⟩]

/-- Modelled from the spec: the check of one string under the tag
`length(1|4096),optional` (spec: "if present, length 1–4096"): an empty value is
accepted, a non-empty one is checked against the length bound. -/
def checkOptionalLength (field : String) (s : String) : List FieldError :=
  if goLen s = 0 then []
  else if byteLength s 1 4096 then []
  else [⟨field, "length(1|4096)"⟩]

/-- Modelled from the spec: the check of a string under the tag `required`. -/
def checkRequired (field : String) (s : String) : List FieldError :=
  if goLen s = 0 then [⟨field, "required"⟩] else []

/-- Modelled from the spec: the check of a `[]string` under the tag
`length(1|4096),required` (spec: "non-empty list requirement"): an empty slice
violates `required`; otherwise the elements are checked in order under the same
tag and the first violation is reported. -/
def checkRequiredList (field : String) (xs : List String) : List FieldError :=
  if xs.length = 0 then [⟨field, "required"⟩]
  else (xs.flatMap (checkRequiredLength field)).take 1

/-- Modelled from the spec: `govalidator.ValidateStruct` on an `ImageMeta`, from
the tag of `Description`. -/
def validateImageMeta (s : ImageMeta) : List FieldError :=
  checkOptionalLength "Description" s.Description

/-- Modelled from the spec: `govalidator.ValidateStruct` on an `ArtifactInfo`
(spec: "both required when present"); a zero `Version` is the empty value of a
`uint`. -/
def validateArtifactInfo (i : ArtifactInfo) : List FieldError :=
  checkRequired "Format" i.Format ++
    (if i.Version = 0 then [⟨"Version", "required"⟩] else [])

/-- Modelled from the spec: `govalidator.ValidateStruct` on an `ArtifactMeta`,
field by field from the tags: `Name` and `DeviceTypesCompatible` carry
`length(1|4096),required`, a non-nil `Info` is validated as a nested struct,
`Signed` has no rule, and `Updates`, `Provides`, `Depends` carry `valid:"-"`. -/
def validateArtifactMeta {U : Type} (am : ArtifactMeta U) : List FieldError :=
  checkRequiredLength "Name" am.Name ++
    checkRequiredList "DeviceTypesCompatible" am.DeviceTypesCompatible ++
    (match am.Info with
     | none => []
     | some i => validateArtifactInfo i)

/-- Modelled from the spec: `govalidator.ValidateStruct` on an `Image`: `Id`
carries `uuidv4,required` (the UUID test `uuid4` is a parameter), the two
embedded structs are validated when non-nil, `Size` and `Modified` carry
`valid:"-"`. -/
def validateImage {U : Type} (uuid4 : String → Bool) (s : Image U) : List FieldError :=
  (if goLen s.Id = 0 then [⟨"Id", "required"⟩]
   else if uuid4 s.Id then [] else [⟨"Id", "uuidv4"⟩]) ++
    (match s.ImageMeta with
     | none => []
     | some m => validateImageMeta m) ++
    (match s.ArtifactMeta with
     | none => []
     | some am => validateArtifactMeta am)

/-- The `error` result of `ValidateStruct`: nil when no rule is violated,
otherwise the collected violations. -/
def asError (errs : List FieldError) : Option GoError :=
  if errs.isEmpty then none else some (GoError.validation errs)

/-- `func (s *ImageMeta) Validate() error`. -/
def ImageMeta.Validate (s : ImageMeta) : ImageMeta × Option GoError :=
  (s, asError (validateImageMeta s))

/-- `func (am *ArtifactMeta) Validate() error`: a nil `Depends` is replaced by a
fresh map, `Depends["device_type"]` is assigned `DeviceTypesCompatible`, then the
struct is validated. -/
def ArtifactMeta.Validate {U : Type} (am : ArtifactMeta U) :
    ArtifactMeta U × Option GoError :=
  let depends : GoMap :=
    match am.Depends with
    | none => GoMap.make
    | some m => m
  let am1 : ArtifactMeta U :=
    { am with
      Depends := some (depends.set "device_type" (Value.ofStrings am.DeviceTypesCompatible)) }
  (am1, asError (validateArtifactMeta am1))

/-- `func (s *Image) Validate() error`. -/
def Image.Validate {U : Type} (uuid4 : String → Bool) (s : Image U) :
    Image U × Option GoError :=
  (s, asError (validateImage uuid4 s))

/-! ## Dependency index (`doc.UnwindMap`) -/

/-- One entry of the dependency index. -/
abbrev Pair := String × Value

/-- Modelled from the spec: the pairs `doc.UnwindMap` emits for one key (the
library `go-lib-micro/mongo/doc` is outside the repository; spec section 4.2): a
scalar gives one pair `(key, value)`, a list gives one pair `(key, element)` per
element, and a nested mapping is an unsupported shape reported as an indexing
error. -/
def unwindValue (k : String) : Value → Except GoError (List Pair)
  | Value.scalar s => Except.ok [(k, Value.scalar s)]
  | Value.list xs => Except.ok (xs.map (fun x => (k, x)))
  | Value.map _ => Except.error (GoError.indexing k)

/-- Modelled from the spec: `doc.UnwindMap` over the entries of a map, in the
order of the entries; the first unsupported value aborts the whole unwind. -/
def unwindEntries : List (Sigma (fun _ : String => Value)) → Except GoError (List Pair)
  | [] => Except.ok []
  | e :: rest =>
    match unwindValue e.1 e.2 with
    | Except.error err => Except.error err
    | Except.ok ps =>
      match unwindEntries rest with
      | Except.error err => Except.error err
      | Except.ok qs => Except.ok (ps ++ qs)

/-- Modelled from the spec: `doc.UnwindMap(m)`; a nil map has no entries. -/
def UnwindMap (m : Option GoMap) : Except GoError (List Pair) :=
  match m with
  | none => Except.ok []
  | some m => unwindEntries m.entries

/-! ## Persisted documents (`doc.DocumentFromStruct`, `bson.Marshal`) -/

/-- Field values that the default BSON codecs encode without calling back into
`image.go`. -/
inductive Plain (U : Type) where
  | str (s : String)
  | strs (xs : List String)
  | bool (b : Bool)
  | int (n : Int)
  | time (t : Option Nat)
  | info (i : Option ArtifactInfo)
  | updates (us : List U)
  | provides (m : Option (List (String × String)))
  | depends (m : Option GoMap)
  | index (ps : List Pair)

/-- The content of marshalled BSON bytes, kept as the tree the bytes encode: a
null, a leaf value written by a default codec, or a document of keyed
elements. -/
inductive Bson (L : Type) where
  | null
  | leaf (v : L)
  | doc (elems : List (String × Bson L))

/-- Marshalled bytes of this model. -/
abbrev Encoded (U : Type) := Bson (Plain U)

/-- The BSON type tags the marshalling of `image.go` can return; `Invalid` is the
zero value of `bsontype.Type`. -/
inductive BsonType where
  | Invalid
  | EmbeddedDocument
  | Null
  deriving DecidableEq, Repr

/-- Encoding of a leaf by a default codec; `codec v` is the error the codec
reports for `v`, if any (the codecs of the driver are a parameter). -/
def encodeLeaf {U : Type} (codec : Plain U → Option GoError) (v : Plain U) :
    Except GoError (Encoded U) :=
  match codec v with
  | none => Except.ok (Bson.leaf v)
  | some err => Except.error err

/-- Modelled from the spec: the encoding of the elements of a `bson.D` by the
BSON driver (a library outside the repository), in order, each value by the
encoder `enc` the registry selects for it; the first error aborts the document
(spec section 4.3: "no partial document is ever emitted"). -/
def encodeElems {U V : Type} (enc : V → Except GoError (Encoded U)) :
    List (String × V) → Except GoError (List (String × Encoded U))
  | [] => Except.ok []
  | (k, v) :: rest =>
    match enc v with
    | Except.error err => Except.error err
    | Except.ok b =>
      match encodeElems enc rest with
      | Except.error err => Except.error err
      | Except.ok bs => Except.ok ((k, b) :: bs)

/-- Modelled from the spec: `bson.Marshal(d)` for a `bson.D`: the bytes of the
document, or nil bytes and the error. -/
def bsonMarshal {U V : Type} (enc : V → Except GoError (Encoded U))
    (d : List (String × V)) : Option (Encoded U) × Option GoError :=
  match encodeElems enc d with
  | Except.error err => (none, some err)
  | Except.ok bs => (some (Bson.doc bs), none)

/-- Modelled from the spec: `bson.MarshalValue(d)` for a `bson.D`: the
embedded-document tag with the bytes, or the zero tag, nil bytes and the error. -/
def bsonMarshalValue {U V : Type} (enc : V → Except GoError (Encoded U))
    (d : List (String × V)) : BsonType × Option (Encoded U) × Option GoError :=
  match encodeElems enc d with
  | Except.error err => (BsonType.Invalid, none, some err)
  | Except.ok bs => (BsonType.EmbeddedDocument, some (Bson.doc bs), none)

/-- Modelled from the spec: `doc.DocumentFromStruct(am, extra...)` (library
`go-lib-micro/mongo/doc`): the fields of the struct in declaration order under
the keys of their `bson` tags (the lower-cased field name for `Info`, which has
none), followed by the appended elements; spec section 6 lists the same keys for
`meta_artifact`. -/
def ArtifactMeta.DocumentFromStruct {U : Type} (am : ArtifactMeta U)
    (extra : List (String × Plain U)) : List (String × Plain U) :=
  [("name", Plain.str am.Name),
   ("device_types_compatible", Plain.strs am.DeviceTypesCompatible),
   ("info", Plain.info am.Info),
   ("signed", Plain.bool am.Signed),
   ("updates", Plain.updates am.Updates),
   ("provides", Plain.provides am.Provides),
   ("depends", Plain.depends am.Depends)] ++ extra

/-- `func (am *ArtifactMeta) MarshalBSON() ([]byte, error)`.  The library
function `doc.UnwindMap` is the parameter `unwind` and the default codecs of the
driver are the parameter `codec`.  The receiver after the call is the one
`Validate` leaves; the function gives the two results. -/
def ArtifactMeta.MarshalBSON {U : Type} (unwind : Option GoMap → Except GoError (List Pair))
    (codec : Plain U → Option GoError) (am : ArtifactMeta U) :
    Option (Encoded U) × Option GoError :=
  match am.Validate with
  | (_, some err) => (none, some err)
  | (am1, none) =>
    match unwind am1.Depends with
    | Except.error err => (none, some err)
    | Except.ok dependsIdx =>
      bsonMarshal (encodeLeaf codec)
        (am1.DocumentFromStruct [("depends_idx", Plain.index dependsIdx)])

/-- `func (am *ArtifactMeta) MarshalBSONValue() (bsontype.Type, []byte, error)`. -/
def ArtifactMeta.MarshalBSONValue {U : Type} (unwind : Option GoMap → Except GoError (List Pair))
    (codec : Plain U → Option GoError) (am : ArtifactMeta U) :
    BsonType × Option (Encoded U) × Option GoError :=
  match am.Validate with
  | (_, some err) => (BsonType.Null, none, some err)
  | (am1, none) =>
    match unwind am1.Depends with
    | Except.error err => (BsonType.Null, none, some err)
    | Except.ok dependsIdx =>
      bsonMarshalValue (encodeLeaf codec)
        (am1.DocumentFromStruct [("depends_idx", Plain.index dependsIdx)])

/-- The values of the document of an `Image`: plain fields and the two embedded
struct pointers. -/
inductive ImageField (U : Type) where
  | plain (v : Plain U)
  | imageMeta (m : Option ImageMeta)
  | artifactMeta (am : Option (ArtifactMeta U))

/-- Modelled from the spec: `doc.DocumentFromStruct(img)`: the fields of the
struct in declaration order under the keys of their `bson` tags (the lower-cased
field name for `Modified`); spec section 6 gives the same shape. -/
def Image.DocumentFromStruct {U : Type} (img : Image U) : List (String × ImageField U) :=
  [("_id", ImageField.plain (Plain.str img.Id)),
   ("meta", ImageField.imageMeta img.ImageMeta),
   ("meta_artifact", ImageField.artifactMeta img.ArtifactMeta),
   ("size", ImageField.plain (Plain.int img.Size)),
   ("modified", ImageField.plain (Plain.time img.Modified))]

/-- Modelled from the spec: the encoder the BSON registry selects for a value of
the document of an `Image`.  `*ImageMeta` declares no marshalling method in
`image.go`, so the struct codec writes its field (spec section 6:
`meta: {description}`); `*ArtifactMeta` implements `MarshalBSONValue`, which "is
called if ArtifactMeta is marshaled as an embedded document" (comment in
`image.go`); a nil pointer is written as null. -/
def encodeImageField {U : Type} (unwind : Option GoMap → Except GoError (List Pair))
    (codec : Plain U → Option GoError) : ImageField U → Except GoError (Encoded U)
  | ImageField.plain v => encodeLeaf codec v
  | ImageField.imageMeta none => Except.ok Bson.null
  | ImageField.imageMeta (some m) =>
    match encodeElems (encodeLeaf codec) [("description", Plain.str m.Description)] with
    | Except.error err => Except.error err
    | Except.ok bs => Except.ok (Bson.doc bs)
  | ImageField.artifactMeta none => Except.ok Bson.null
  | ImageField.artifactMeta (some am) =>
    match am.MarshalBSONValue unwind codec with
    | (_, _, some err) => Except.error err
    | (_, some b, none) => Except.ok b
    | (_, none, none) => Except.ok Bson.null

/-- `func (img *Image) MarshalBSON() ([]byte, error)`. -/
def Image.MarshalBSON {U : Type} (unwind : Option GoMap → Except GoError (List Pair))
    (codec : Plain U → Option GoError) (img : Image U) :
    Option (Encoded U) × Option GoError :=
  bsonMarshal (encodeImageField unwind codec) img.DocumentFromStruct

/-- `func (img *Image) MarshalBSONValue() (bsontype.Type, []byte, error)`. -/
def Image.MarshalBSONValue {U : Type} (unwind : Option GoMap → Except GoError (List Pair))
    (codec : Plain U → Option GoError) (img : Image U) :
    BsonType × Option (Encoded U) × Option GoError :=
  bsonMarshalValue (encodeImageField unwind codec) img.DocumentFromStruct

/-- `func NewImage(id, metaConstructor, metaArtifactConstructor, artifactSize)`;
the reading of the clock is the parameter `now`. -/
def NewImage {U : Type} (now : Nat) (id : String) (metaConstructor : Option ImageMeta)
    (metaArtifactConstructor : Option (ArtifactMeta U)) (artifactSize : Int) : Image U :=
  { ImageMeta := metaConstructor
    ArtifactMeta := metaArtifactConstructor
    Modified := some now
    Id := id
    Size := artifactSize }

/-- `func (s *Image) SetModified(time time.Time)`. -/
def Image.SetModified {U : Type} (s : Image U) (time : Nat) : Image U :=
  { s with Modified := some time }

/-- The Go expression `d[k]` on a map that may be nil (a nil map has no entry). -/
def dependsAt (d : Option GoMap) (k : String) : Option Value :=
  match d with
  | none => none
  | some m => m.get k

/-- A value is a scalar. -/
def Value.isScalar : Value → Bool
  | Value.scalar _ => true
  | _ => false

/-- A value is a list whose elements are all scalars. -/
def Value.isScalarList : Value → Bool
  | Value.list xs => xs.all Value.isScalar
  | _ => false

/-- The number of index pairs the spec's testable property assigns to a value: 1
for a scalar, the length for a list. -/
def Value.pairCount : Value → Nat
  | Value.scalar _ => 1
  | Value.list xs => xs.length
  | Value.map _ => 0

/-- The index pairs the spec's testable property assigns to a key and its value:
`(key, value)` for a scalar, `(key, element)` for each element of a list. -/
def Value.pairsAt (k : String) : Value → List Pair
  | Value.scalar s => [(k, Value.scalar s)]
  | Value.list xs => xs.map (fun x => (k, x))
  | Value.map _ => []

/-- The pairs of an index filed under the key `k`, in order. -/
def pairsOf (k : String) (ps : List Pair) : List Pair :=
  ps.filter (fun p => p.1 == k)

/-! ## Releases list endpoint -/

/-- Modelled from the spec: a release, the query-time grouping of image records
under an artifact name (the type `model.Release` is declared outside the files
at hand; spec section 3). -/
structure Release (U : Type) where
  Name : String
  Artifacts : List (Image U)

/-- Modelled from the spec: the filter of the list query (`model.ReleaseFilter`,
used by the test with the single field `Name`). -/
structure ReleaseFilter where
  Name : String
  deriving DecidableEq, Repr

/-- The part of the HTTP request the endpoint reads: the optional `name` query
parameter. -/
structure Request where
  name : Option String
  deriving DecidableEq, Repr

/-- The JSON body of a response: an array of releases or an error object with its
message; `null` is a body of its own. -/
inductive Body (U : Type) where
  | null
  | releases (rs : List (Release U))
  | error (msg : String)

/-- The response status and body. -/
structure Response (U : Type) where
  status : Nat
  body : Body U

/-- The store capability `GetReleases(ctx, filter)` injected into the controller;
a nil filter is `none`. -/
abbrev Store (U : Type) := Option ReleaseFilter → Except GoError (List (Release U))

/-- Modelled from the spec: parsing of the optional `name` query parameter into a
filter (section 4.6; the controller is outside the files at hand); no parameter
gives no filter, as the test's nil filter for the plain URL. -/
def getReleaseFilter (r : Request) : Option ReleaseFilter :=
  match r.name with
  | none => none
  | some n => some ⟨n⟩

/-- Modelled from the spec: `ReleasesController.GetReleases` (section 4.6): parse
the filter, call the store with it, render the sequence with status 200 on
success and the generic message with status 500 on a store error. -/
def GetReleases {U : Type} (store : Store U) (r : Request) : Response U :=
  match store (getReleaseFilter r) with
  | Except.error _ => ⟨500, Body.error "internal error"⟩
  | Except.ok releases => ⟨200, Body.releases releases⟩

/-! ## Sample records -/

/-- The artifact metadata of the record used by the controller test, with no
`Depends` map yet. -/
def sampleMeta : ArtifactMeta Unit :=
  { Name := "App1 v1.0"
    DeviceTypesCompatible := ["bar", "baz"]
    Info := none
    Signed := false
    Updates := []
    Provides := none
    Depends := none }

/-- Artifact metadata without a name. -/
def unnamedMeta : ArtifactMeta Unit :=
  { sampleMeta with Name := "" }

/-- Artifact metadata whose `Depends` already holds a checksum and a stale
`device_type`. -/
def dependentMeta : ArtifactMeta Unit :=
  { sampleMeta with
    Depends := some ((GoMap.make.set "device_type" (Value.scalar (Scalar.str "old"))).set
      "rootfs_image_checksum" (Value.scalar (Scalar.str "abc"))) }

/-- A dependency map with a scalar entry and a list entry. -/
def sampleDepends : GoMap :=
  (GoMap.make.set "rootfs_image_checksum" (Value.scalar (Scalar.str "abc"))).set
    "device_type" (Value.ofStrings ["bar", "baz"])

/-- Artifact metadata whose `Depends` holds a nested mapping. -/
def nestedMeta : ArtifactMeta Unit :=
  { sampleMeta with
    Depends := some (GoMap.make.set "nested"
      (Value.map [("inner", Value.scalar (Scalar.num 1))])) }

/-- A description of 4097 bytes. -/
def longDescription : String := String.mk (List.replicate 4097 'a')

/-- An image whose description is too long and whose artifact metadata is the
valid record of the controller test. -/
def longImage : Image Unit :=
  { Id := "1"
    ImageMeta := some ⟨longDescription⟩
    ArtifactMeta := some sampleMeta
    Size := 0
    Modified := none }

/-- Default codecs that encode every leaf. -/
def plainCodec : Plain Unit → Option GoError := fun _ => none

/-- The store of the controller test case "ok, filter": an empty sequence for the
filter on the name `foo`, a failure for any other call. -/
def fooStore : Store Unit := fun f =>
  if f = some ⟨"foo"⟩ then Except.ok [] else Except.error (GoError.store "unexpected call")

/-! ## Auxiliary facts -/

theorem goMap_get_set_self (m : GoMap) (k : String) (v : Value) :
    (m.set k v).get k = some v := by
  simp [GoMap.set, GoMap.get]

theorem goMap_get_set_other (m : GoMap) (k k' : String) (v : Value) (h : k' ≠ k) :
    (m.set k v).get k' = m.get k' := by
  simp [GoMap.set, GoMap.get, AList.lookup_insert_ne h]

theorem goMap_set_set (m : GoMap) (k : String) (v : Value) :
    (m.set k v).set k v = m.set k v := by
  simp [GoMap.set, AList.insert_insert]

theorem goMap_get_make (k : String) : GoMap.make.get k = none := by
  simp [GoMap.make, GoMap.get]

/-! ## Validation of artifact metadata -/

/-- C1: after `ArtifactMeta.Validate`, whatever `Depends` held before and whether
or not a violation is reported, `Depends` is a non-nil map whose entry
`"device_type"` equals `DeviceTypesCompatible`. -/
theorem validate_sets_device_type {U : Type} (am : ArtifactMeta U) :
    ∃ m : GoMap, am.Validate.1.Depends = some m ∧
      m.get "device_type" = some (Value.ofStrings am.DeviceTypesCompatible) ∧
      m.get "device_type" = some (Value.ofStrings am.Validate.1.DeviceTypesCompatible) := by
  refine ⟨_, rfl, ?_, ?_⟩
  · exact goMap_get_set_self _ _ _
  · exact goMap_get_set_self _ _ _

/-- C10: `ArtifactMeta.Validate` changes nothing but the entry
`Depends["device_type"]`: every other key of `Depends` reads as before, the fields
`Name`, `DeviceTypesCompatible`, `Info`, `Signed`, `Updates` and `Provides` are
unchanged, and a second call returns the same receiver and the same result as
the first. -/
theorem validate_frame_and_idempotent {U : Type} (am : ArtifactMeta U) :
    (∀ k : String, k ≠ "device_type" →
        dependsAt am.Validate.1.Depends k = dependsAt am.Depends k) ∧
      am.Validate.1.Name = am.Name ∧
      am.Validate.1.DeviceTypesCompatible = am.DeviceTypesCompatible ∧
      am.Validate.1.Info = am.Info ∧
      am.Validate.1.Signed = am.Signed ∧
      am.Validate.1.Updates = am.Updates ∧
      am.Validate.1.Provides = am.Provides ∧
      am.Validate.1.Validate = am.Validate := by
  refine ⟨?_, rfl, rfl, rfl, rfl, rfl, rfl, ?_⟩
  · intro k hk
    cases hd : am.Depends with
    | none =>
      simp only [ArtifactMeta.Validate, hd, dependsAt]
      rw [goMap_get_set_other _ _ _ _ hk]
      exact goMap_get_make k
    | some m =>
      simp only [ArtifactMeta.Validate, hd, dependsAt]
      exact goMap_get_set_other _ _ _ _ hk
  · simp only [ArtifactMeta.Validate, goMap_set_set]

theorem asError_eq_none_iff (errs : List FieldError) : asError errs = none ↔ errs = [] := by
  cases errs <;> simp [asError]

theorem goLen_empty : goLen "" = 0 := by
  simp [goLen, String.utf8ByteSize, String.utf8ByteSize.go]

theorem checkRequiredLength_eq_nil_iff (field s : String) :
    checkRequiredLength field s = [] ↔ 1 ≤ goLen s ∧ goLen s ≤ 4096 := by
  unfold checkRequiredLength byteLength
  by_cases h0 : goLen s = 0
  · simp [h0]
  · by_cases h1 : goLen s ≤ 4096
    · have : 1 ≤ goLen s := Nat.one_le_iff_ne_zero.mpr h0
      simp [h0, h1, this]
    · simp [h0, h1]

theorem checkRequiredList_eq_nil_iff (field : String) (xs : List String) :
    checkRequiredList field xs = [] ↔
      xs ≠ [] ∧ ∀ t ∈ xs, 1 ≤ goLen t ∧ goLen t ≤ 4096 := by
  unfold checkRequiredList
  cases xs with
  | nil => simp
  | cons x rest =>
    simp only [List.length_cons, Nat.succ_ne_zero, if_false, ne_eq, not_false_eq_true,
      true_and, reduceCtorEq]
    rw [List.take_eq_nil_iff]
    simp only [one_ne_zero, false_or, List.flatMap_eq_nil_iff]
    constructor
    · intro h t ht
      exact (checkRequiredLength_eq_nil_iff field t).mp (h t ht)
    · intro h t ht
      exact (checkRequiredLength_eq_nil_iff field t).mpr (h t ht)

/-- C5: `ArtifactMeta.Validate` reports an error whenever `Name` is empty, `Name`
is longer than 4096, or `DeviceTypesCompatible` is empty; and it reports no error
when `Name` has length 1..4096, `DeviceTypesCompatible` is non-empty with every
element of length 1..4096, and `Info` is absent. -/
theorem validate_rules {U : Type} (am : ArtifactMeta U) :
    ((am.Name = "" ∨ 4096 < goLen am.Name ∨ am.DeviceTypesCompatible = []) →
        am.Validate.2 ≠ none) ∧
      ((1 ≤ goLen am.Name ∧ goLen am.Name ≤ 4096 ∧ am.DeviceTypesCompatible ≠ [] ∧
          (∀ t ∈ am.DeviceTypesCompatible, 1 ≤ goLen t ∧ goLen t ≤ 4096) ∧
          am.Info = none) →
        am.Validate.2 = none) := by
  constructor
  · intro h
    simp only [ArtifactMeta.Validate, ne_eq, asError_eq_none_iff, validateArtifactMeta,
      List.append_eq_nil, checkRequiredLength_eq_nil_iff, checkRequiredList_eq_nil_iff]
    rintro ⟨⟨⟨h1, h2⟩, h3, _⟩, _⟩
    rcases h with h | h | h
    · rw [h, goLen_empty] at h1
      omega
    · omega
    · exact h3 h
  · rintro ⟨h1, h2, h3, h4, h5⟩
    simp only [ArtifactMeta.Validate, asError_eq_none_iff, validateArtifactMeta,
      List.append_eq_nil, checkRequiredLength_eq_nil_iff, checkRequiredList_eq_nil_iff, h5]
    exact ⟨⟨⟨h1, h2⟩, h3, h4⟩, trivial⟩

/-- Witness of `validate_rules`: the nameless record is rejected and the record
of the controller test is accepted. -/
theorem validate_rules_witness :
    unnamedMeta.Validate.2 ≠ none ∧ sampleMeta.Validate.2 = none :=
  ⟨(validate_rules unnamedMeta).1 (Or.inl rfl),
   (validate_rules sampleMeta).2 (by decide)⟩

/-- Witness of `validate_frame_and_idempotent`: the checksum entry of
`dependentMeta` reads the same after `Validate`. -/
theorem validate_frame_and_idempotent_witness :
    dependsAt dependentMeta.Validate.1.Depends "rootfs_image_checksum" =
      dependsAt dependentMeta.Depends "rootfs_image_checksum" :=
  (validate_frame_and_idempotent dependentMeta).1 "rootfs_image_checksum" (by decide)

/-- C6 (counterexample): `ArtifactMeta.Validate` does not leave its receiver as
it was: the record of the controller test has no `Depends` map before the call
and has one after it. -/
theorem validate_mutates_receiver :
    sampleMeta.Depends = none ∧ sampleMeta.Validate.1.Depends ≠ none ∧
      sampleMeta.Validate.1 ≠ sampleMeta := by
  refine ⟨rfl, ?_, ?_⟩
  · simp [ArtifactMeta.Validate]
  · intro h
    have hd := congrArg ArtifactMeta.Depends h
    simp [ArtifactMeta.Validate, sampleMeta] at hd

/-- C6 (amended): `ImageMeta.Validate` and `Image.Validate` leave their receiver
exactly as it was, whether or not they report a violation; `ArtifactMeta.Validate`
leaves every field other than `Depends` as it was. -/
theorem validate_receivers {U : Type} (uuid4 : String → Bool) (s : ImageMeta)
    (img : Image U) (am : ArtifactMeta U) :
    (ImageMeta.Validate s).1 = s ∧ (Image.Validate uuid4 img).1 = img ∧
      { am.Validate.1 with Depends := am.Depends } = am := by
  exact ⟨rfl, rfl, rfl⟩

/-! ## Dependency index -/

theorem unwindValue_ok (k : String) (v : Value) (ps : List Pair)
    (h : unwindValue k v = Except.ok ps) : ps = Value.pairsAt k v := by
  cases v <;> simp_all [unwindValue, Value.pairsAt]

theorem pairsOf_append (k : String) (ps qs : List Pair) :
    pairsOf k (ps ++ qs) = pairsOf k ps ++ pairsOf k qs := by
  simp [pairsOf]

theorem pairsOf_pairsAt_self (k : String) (v : Value) :
    pairsOf k (Value.pairsAt k v) = Value.pairsAt k v := by
  cases v <;> simp [pairsOf, Value.pairsAt, List.filter_eq_self]

theorem pairsOf_pairsAt_other (k k' : String) (v : Value) (h : k' ≠ k) :
    pairsOf k (Value.pairsAt k' v) = [] := by
  cases v <;> simp [pairsOf, Value.pairsAt, List.filter_eq_nil_iff, h]

theorem pairsAt_length (k : String) (v : Value) :
    (Value.pairsAt k v).length = Value.pairCount v := by
  cases v <;> simp [Value.pairsAt, Value.pairCount]

theorem unwindEntries_cons_ok (e : Sigma (fun _ : String => Value))
    (rest : List (Sigma (fun _ : String => Value))) (ps : List Pair)
    (h : unwindEntries (e :: rest) = Except.ok ps) :
    ∃ qs, unwindEntries rest = Except.ok qs ∧ ps = Value.pairsAt e.1 e.2 ++ qs := by
  unfold unwindEntries at h
  cases hv : unwindValue e.1 e.2 with
  | error err => simp [hv] at h
  | ok p1 =>
    cases hr : unwindEntries rest with
    | error err => simp [hv, hr] at h
    | ok qs =>
      simp only [hv, hr, Except.ok.injEq] at h
      exact ⟨qs, rfl, by rw [← h, unwindValue_ok _ _ _ hv]⟩

theorem unwindEntries_absent (k : String) :
    ∀ (l : List (Sigma (fun _ : String => Value))) (ps : List Pair),
      unwindEntries l = Except.ok ps → k ∉ l.keys → pairsOf k ps = []
  | [], ps, h, _ => by
    simp only [unwindEntries, Except.ok.injEq] at h
    subst h
    rfl
  | e :: rest, ps, h, hk => by
    obtain ⟨qs, hq, rfl⟩ := unwindEntries_cons_ok e rest ps h
    rw [List.keys_cons, List.mem_cons, not_or] at hk
    rw [pairsOf_append, pairsOf_pairsAt_other k e.1 e.2 (fun h' => hk.1 h'.symm),
      unwindEntries_absent k rest qs hq hk.2]
    rfl

theorem unwindEntries_present (k : String) (v : Value) :
    ∀ (l : List (Sigma (fun _ : String => Value))) (ps : List Pair),
      l.NodupKeys → unwindEntries l = Except.ok ps → List.dlookup k l = some v →
        pairsOf k ps = Value.pairsAt k v
  | [], _, _, _, hl => by simp at hl
  | e :: rest, ps, hn, h, hl => by
    obtain ⟨qs, hq, rfl⟩ := unwindEntries_cons_ok e rest ps h
    rw [List.nodupKeys_cons] at hn
    by_cases hek : e.1 = k
    · obtain ⟨k1, v1⟩ := e
      simp only at hek
      subst hek
      rw [List.dlookup_cons_eq] at hl
      simp only [Option.some.injEq] at hl
      subst hl
      rw [pairsOf_append, pairsOf_pairsAt_self, unwindEntries_absent k1 rest qs hq hn.1]
      simp
    · obtain ⟨k1, v1⟩ := e
      simp only at hek
      rw [List.dlookup_cons_ne _ _ (fun h' => hek h'.symm)] at hl
      rw [pairsOf_append, pairsOf_pairsAt_other k k1 v1 hek,
        unwindEntries_present k v rest qs hn.2 hq hl]
      rfl

theorem unwindEntries_total :
    ∀ (l : List (Sigma (fun _ : String => Value))),
      (∀ e ∈ l, e.2.isScalar = true ∨ e.2.isScalarList = true) →
        ∃ ps, unwindEntries l = Except.ok ps
  | [], _ => ⟨[], rfl⟩
  | e :: rest, h => by
    obtain ⟨qs, hq⟩ := unwindEntries_total rest (fun x hx => h x (List.mem_cons_of_mem _ hx))
    have he := h e (List.mem_cons_self _ _)
    obtain ⟨k1, v1⟩ := e
    cases v1 with
    | scalar s => exact ⟨(k1, Value.scalar s) :: qs, by simp [unwindEntries, unwindValue, hq]⟩
    | list xs =>
      exact ⟨xs.map (fun x => (k1, x)) ++ qs, by simp [unwindEntries, unwindValue, hq]⟩
    | map m => simp [Value.isScalar, Value.isScalarList] at he

theorem unwindEntries_length :
    ∀ (l : List (Sigma (fun _ : String => Value))) (ps : List Pair),
      unwindEntries l = Except.ok ps →
        ps.length = (l.map (fun e => Value.pairCount e.2)).sum
  | [], ps, h => by
    simp only [unwindEntries, Except.ok.injEq] at h
    subst h
    rfl
  | e :: rest, ps, h => by
    obtain ⟨qs, hq, rfl⟩ := unwindEntries_cons_ok e rest ps h
    simp [pairsAt_length, unwindEntries_length rest qs hq]

theorem sum_over_keys :
    ∀ (l : List (Sigma (fun _ : String => Value))), l.NodupKeys →
      (l.keys.map (fun k => match List.dlookup k l with
          | some v => Value.pairCount v
          | none => 0)).sum = (l.map (fun e => Value.pairCount e.2)).sum
  | [], _ => rfl
  | e :: rest, hn => by
    rw [List.nodupKeys_cons] at hn
    obtain ⟨k1, v1⟩ := e
    have hrest : rest.keys.map (fun k => match List.dlookup k (⟨k1, v1⟩ :: rest) with
          | some v => Value.pairCount v
          | none => 0) = rest.keys.map (fun k => match List.dlookup k rest with
          | some v => Value.pairCount v
          | none => 0) := by
      apply List.map_congr_left
      intro k hk
      have hne : k ≠ k1 := fun h' => hn.1 (h' ▸ hk)
      rw [List.dlookup_cons_ne _ _ hne]
    simp only [List.keys_cons, List.map_cons, List.sum_cons, List.dlookup_cons_eq, hrest,
      sum_over_keys rest hn.2]

/-- C7: for a dependency map whose values are only scalars and lists of scalars
the unwind succeeds and its pairs filed under each key are exactly `(key, value)`
for a scalar value and `(key, element)` for each element of a list value, with no
pair under a key the map lacks, so the number of pairs is the sum over the keys
of 1 for a scalar and of the length for a list; and the index built from the
receiver `Validate` leaves holds under `"device_type"` one pair for each element
of `DeviceTypesCompatible`. -/
theorem unwind_pairs :
    (∀ m : GoMap, (∀ e ∈ m.entries, e.2.isScalar = true ∨ e.2.isScalarList = true) →
      ∃ ps, UnwindMap (some m) = Except.ok ps ∧
        (∀ k v, m.get k = some v → pairsOf k ps = Value.pairsAt k v) ∧
        (∀ k, m.get k = none → pairsOf k ps = []) ∧
        ps.length = (m.keys.map (fun k => match m.get k with
          | some v => Value.pairCount v
          | none => 0)).sum) ∧
    (∀ (U : Type) (am : ArtifactMeta U) (idx : List Pair),
      UnwindMap am.Validate.1.Depends = Except.ok idx →
        pairsOf "device_type" idx =
          am.DeviceTypesCompatible.map
            (fun t => ("device_type", Value.scalar (Scalar.str t)))) := by
  constructor
  · intro m hm
    obtain ⟨ps, hps⟩ := unwindEntries_total m.entries hm
    refine ⟨ps, hps, ?_, ?_, ?_⟩
    · intro k v hk
      exact unwindEntries_present k v m.entries ps m.nodupKeys hps hk
    · intro k hk
      apply unwindEntries_absent k m.entries ps hps
      exact AList.lookup_eq_none.mp hk
    · rw [unwindEntries_length m.entries ps hps, ← sum_over_keys m.entries m.nodupKeys]
      rfl
  · intro U am idx h
    have hlook : (am.Validate.1.Depends).bind (fun m => m.get "device_type") =
        some (Value.ofStrings am.DeviceTypesCompatible) := by
      simp only [ArtifactMeta.Validate, Option.some_bind]
      exact goMap_get_set_self _ _ _
    cases hd : am.Validate.1.Depends with
    | none => simp [hd] at hlook
    | some m =>
      rw [hd] at h hlook
      simp only [Option.some_bind] at hlook
      have := unwindEntries_present "device_type" _ m.entries idx m.nodupKeys h hlook
      rw [this]
      simp [Value.ofStrings, Value.pairsAt]

/-- Witness of `unwind_pairs`: the sample map (one scalar entry, one list entry
of two elements) unwinds, and its index has the pairs the property lists. -/
theorem unwind_pairs_witness :
    ∃ ps, UnwindMap (some sampleDepends) = Except.ok ps ∧
      (∀ k v, sampleDepends.get k = some v → pairsOf k ps = Value.pairsAt k v) ∧
      (∀ k, sampleDepends.get k = none → pairsOf k ps = []) ∧
      ps.length = (sampleDepends.keys.map (fun k => match sampleDepends.get k with
        | some v => Value.pairCount v
        | none => 0)).sum :=
  unwind_pairs.1 sampleDepends (by decide)

/-! ## Persisted documents -/

/-- The dependency map `Validate` leaves: the caller's map (a fresh one if nil)
with `"device_type"` set to `DeviceTypesCompatible`. -/
theorem validate_depends {U : Type} (am : ArtifactMeta U) :
    am.Validate.1.Depends =
      some ((am.Depends.getD GoMap.make).set "device_type"
        (Value.ofStrings am.DeviceTypesCompatible)) := by
  cases hd : am.Depends <;> simp [ArtifactMeta.Validate, hd]

theorem marshalBSON_eq {U : Type} (unwind : Option GoMap → Except GoError (List Pair))
    (codec : Plain U → Option GoError) (am : ArtifactMeta U) :
    am.MarshalBSON unwind codec =
      match am.Validate.2 with
      | some err => (none, some err)
      | none =>
        match unwind am.Validate.1.Depends with
        | Except.error err => (none, some err)
        | Except.ok idx =>
          bsonMarshal (encodeLeaf codec)
            (am.Validate.1.DocumentFromStruct [("depends_idx", Plain.index idx)]) := by
  unfold ArtifactMeta.MarshalBSON
  rcases hv : am.Validate with ⟨am1, _ | err⟩ <;> rfl

theorem marshalBSONValue_eq {U : Type} (unwind : Option GoMap → Except GoError (List Pair))
    (codec : Plain U → Option GoError) (am : ArtifactMeta U) :
    am.MarshalBSONValue unwind codec =
      match am.Validate.2 with
      | some err => (BsonType.Null, none, some err)
      | none =>
        match unwind am.Validate.1.Depends with
        | Except.error err => (BsonType.Null, none, some err)
        | Except.ok idx =>
          bsonMarshalValue (encodeLeaf codec)
            (am.Validate.1.DocumentFromStruct [("depends_idx", Plain.index idx)]) := by
  unfold ArtifactMeta.MarshalBSONValue
  rcases hv : am.Validate with ⟨am1, _ | err⟩ <;> rfl

theorem encodeElems_leaf_ok {U : Type} (codec : Plain U → Option GoError) :
    ∀ (d : List (String × Plain U)) (bs : List (String × Encoded U)),
      encodeElems (encodeLeaf codec) d = Except.ok bs →
        bs = d.map (fun kv => (kv.1, Bson.leaf kv.2))
  | [], bs, h => by
    simp only [encodeElems, Except.ok.injEq] at h
    subst h
    rfl
  | (k, v) :: rest, bs, h => by
    unfold encodeElems at h
    cases hc : codec v with
    | some err => simp [encodeLeaf, hc] at h
    | none =>
      cases hr : encodeElems (encodeLeaf codec) rest with
      | error err => simp [encodeLeaf, hc, hr] at h
      | ok cs =>
        simp only [encodeLeaf, hc, hr, Except.ok.injEq] at h
        rw [← h, encodeElems_leaf_ok codec rest cs hr]
        rfl

theorem encodeElems_error_of_mem {U V : Type} (enc : V → Except GoError (Encoded U)) :
    ∀ (d : List (String × V)) (k : String) (v : V) (err : GoError),
      (k, v) ∈ d → enc v = Except.error err → ∃ err1, encodeElems enc d = Except.error err1
  | [], _, _, _, hmem, _ => by simp at hmem
  | (k1, v1) :: rest, k, v, err, hmem, hv => by
    unfold encodeElems
    cases h1 : enc v1 with
    | error e1 => exact ⟨e1, rfl⟩
    | ok b1 =>
      have hrest : (k, v) ∈ rest := by
        rcases List.mem_cons.mp hmem with h | h
        · injection h with _ h2
          subst h2
          rw [hv] at h1
          cases h1
        · exact h
      obtain ⟨e2, he2⟩ := encodeElems_error_of_mem enc rest k v err hrest hv
      exact ⟨e2, by simp [he2]⟩

/-- C2: when `ArtifactMeta.MarshalBSON` (likewise `MarshalBSONValue`) succeeds,
the document it produces holds the regular fields of the struct followed by
`depends_idx`, whose value is the unwind of the caller's `Depends` with
`"device_type"` set to `DeviceTypesCompatible`; the index is computed from these
two fields alone on every call.  This holds for every unwind function and for
every behaviour of the default codecs. -/
theorem marshal_document {U : Type}
    (unwind : Option GoMap → Except GoError (List Pair))
    (codec : Plain U → Option GoError) (am : ArtifactMeta U)
    (h : (am.MarshalBSON unwind codec).2 = none ∨
      (am.MarshalBSONValue unwind codec).2.2 = none) :
    ∃ idx : List Pair,
      unwind (some ((am.Depends.getD GoMap.make).set "device_type"
        (Value.ofStrings am.DeviceTypesCompatible))) = Except.ok idx ∧
      am.MarshalBSON unwind codec =
        (some (Bson.doc
          [("name", Bson.leaf (Plain.str am.Name)),
           ("device_types_compatible", Bson.leaf (Plain.strs am.DeviceTypesCompatible)),
           ("info", Bson.leaf (Plain.info am.Info)),
           ("signed", Bson.leaf (Plain.bool am.Signed)),
           ("updates", Bson.leaf (Plain.updates am.Updates)),
           ("provides", Bson.leaf (Plain.provides am.Provides)),
           ("depends", Bson.leaf (Plain.depends
             (some ((am.Depends.getD GoMap.make).set "device_type"
               (Value.ofStrings am.DeviceTypesCompatible))))),
           ("depends_idx", Bson.leaf (Plain.index idx))]), none) ∧
      am.MarshalBSONValue unwind codec =
        (BsonType.EmbeddedDocument, some (Bson.doc
          [("name", Bson.leaf (Plain.str am.Name)),
           ("device_types_compatible", Bson.leaf (Plain.strs am.DeviceTypesCompatible)),
           ("info", Bson.leaf (Plain.info am.Info)),
           ("signed", Bson.leaf (Plain.bool am.Signed)),
           ("updates", Bson.leaf (Plain.updates am.Updates)),
           ("provides", Bson.leaf (Plain.provides am.Provides)),
           ("depends", Bson.leaf (Plain.depends
             (some ((am.Depends.getD GoMap.make).set "device_type"
               (Value.ofStrings am.DeviceTypesCompatible))))),
           ("depends_idx", Bson.leaf (Plain.index idx))]), none) := by
  rw [marshalBSON_eq, marshalBSONValue_eq] at h ⊢
  cases hv : am.Validate.2 with
  | some err => simp [hv] at h
  | none =>
    cases hu : unwind am.Validate.1.Depends with
    | error err => simp [hv, hu] at h
    | ok idx =>
      cases he : encodeElems (encodeLeaf codec)
          (am.Validate.1.DocumentFromStruct [("depends_idx", Plain.index idx)]) with
      | error err => simp [hv, hu, bsonMarshal, bsonMarshalValue, he] at h
      | ok bs =>
        have hbs := encodeElems_leaf_ok codec _ bs he
        refine ⟨idx, ?_, ?_, ?_⟩
        · rw [← validate_depends]
          exact hu
        · simp only [bsonMarshal, he]
          rw [hbs]
          simp only [ArtifactMeta.DocumentFromStruct, validate_depends, List.map_cons,
            List.map_nil, List.cons_append, List.nil_append]
          rfl
        · simp only [bsonMarshalValue, he]
          rw [hbs]
          simp only [ArtifactMeta.DocumentFromStruct, validate_depends, List.map_cons,
            List.map_nil, List.cons_append, List.nil_append]
          rfl

/-- Witness of `marshal_document`: the record of the controller test marshals,
and its index is the two `device_type` pairs. -/
theorem marshal_document_witness :
    (sampleMeta.MarshalBSON UnwindMap plainCodec).2 = none ∧
      ∃ idx : List Pair,
        UnwindMap (some ((sampleMeta.Depends.getD GoMap.make).set "device_type"
          (Value.ofStrings sampleMeta.DeviceTypesCompatible))) = Except.ok idx ∧
        sampleMeta.MarshalBSON UnwindMap plainCodec =
          (some (Bson.doc
            [("name", Bson.leaf (Plain.str sampleMeta.Name)),
             ("device_types_compatible",
               Bson.leaf (Plain.strs sampleMeta.DeviceTypesCompatible)),
             ("info", Bson.leaf (Plain.info sampleMeta.Info)),
             ("signed", Bson.leaf (Plain.bool sampleMeta.Signed)),
             ("updates", Bson.leaf (Plain.updates sampleMeta.Updates)),
             ("provides", Bson.leaf (Plain.provides sampleMeta.Provides)),
             ("depends", Bson.leaf (Plain.depends
               (some ((sampleMeta.Depends.getD GoMap.make).set "device_type"
                 (Value.ofStrings sampleMeta.DeviceTypesCompatible))))),
             ("depends_idx", Bson.leaf (Plain.index idx))]), none) ∧
        sampleMeta.MarshalBSONValue UnwindMap plainCodec =
          (BsonType.EmbeddedDocument, some (Bson.doc
            [("name", Bson.leaf (Plain.str sampleMeta.Name)),
             ("device_types_compatible",
               Bson.leaf (Plain.strs sampleMeta.DeviceTypesCompatible)),
             ("info", Bson.leaf (Plain.info sampleMeta.Info)),
             ("signed", Bson.leaf (Plain.bool sampleMeta.Signed)),
             ("updates", Bson.leaf (Plain.updates sampleMeta.Updates)),
             ("provides", Bson.leaf (Plain.provides sampleMeta.Provides)),
             ("depends", Bson.leaf (Plain.depends
               (some ((sampleMeta.Depends.getD GoMap.make).set "device_type"
                 (Value.ofStrings sampleMeta.DeviceTypesCompatible))))),
             ("depends_idx", Bson.leaf (Plain.index idx))]), none) :=
  ⟨by decide, marshal_document UnwindMap plainCodec sampleMeta (Or.inl (by decide))⟩

/-- C3: if `ArtifactMeta.Validate` returns an error, or it returns none and the
unwind of `Depends` returns an error, then `MarshalBSON` returns that error with
nil bytes and `MarshalBSONValue` returns that error with nil bytes and the Null
type; and neither method ever returns bytes together with an error. -/
theorem marshal_error_no_document {U : Type}
    (unwind : Option GoMap → Except GoError (List Pair))
    (codec : Plain U → Option GoError) (am : ArtifactMeta U) :
    (∀ err : GoError,
      (am.Validate.2 = some err ∨
        (am.Validate.2 = none ∧ unwind am.Validate.1.Depends = Except.error err)) →
      am.MarshalBSON unwind codec = (none, some err) ∧
        am.MarshalBSONValue unwind codec = (BsonType.Null, none, some err)) ∧
    ((am.MarshalBSON unwind codec).2 ≠ none → (am.MarshalBSON unwind codec).1 = none) ∧
    ((am.MarshalBSONValue unwind codec).2.2 ≠ none →
      (am.MarshalBSONValue unwind codec).2.1 = none) := by
  rw [marshalBSON_eq, marshalBSONValue_eq]
  refine ⟨?_, ?_, ?_⟩
  · rintro err (h | ⟨h1, h2⟩)
    · simp [h]
    · simp [h1, h2]
  · cases am.Validate.2 with
    | some err => simp
    | none =>
      cases unwind am.Validate.1.Depends with
      | error err => simp
      | ok idx =>
        simp only [bsonMarshal]
        cases encodeElems (encodeLeaf codec)
          (am.Validate.1.DocumentFromStruct [("depends_idx", Plain.index idx)]) <;> simp
  · cases am.Validate.2 with
    | some err => simp
    | none =>
      cases unwind am.Validate.1.Depends with
      | error err => simp
      | ok idx =>
        simp only [bsonMarshalValue]
        cases encodeElems (encodeLeaf codec)
          (am.Validate.1.DocumentFromStruct [("depends_idx", Plain.index idx)]) <;> simp

/-- Witness of `marshal_error_no_document`: the nameless record yields the
validation error and the record with a nested mapping yields the indexing error,
each with nil bytes. -/
theorem marshal_error_no_document_witness :
    (unnamedMeta.MarshalBSON UnwindMap plainCodec =
        (none, some (GoError.validation [⟨"Name", "required"⟩])) ∧
      unnamedMeta.MarshalBSONValue UnwindMap plainCodec =
        (BsonType.Null, none, some (GoError.validation [⟨"Name", "required"⟩]))) ∧
    (nestedMeta.MarshalBSON UnwindMap plainCodec = (none, some (GoError.indexing "nested")) ∧
      nestedMeta.MarshalBSONValue UnwindMap plainCodec =
        (BsonType.Null, none, some (GoError.indexing "nested"))) :=
  ⟨(marshal_error_no_document UnwindMap plainCodec unnamedMeta).1 _ (Or.inl (by decide)),
   (marshal_error_no_document UnwindMap plainCodec nestedMeta).1 _ (Or.inr ⟨by decide, rfl⟩)⟩

theorem goLen_replicate (n : Nat) : goLen (String.mk (List.replicate n 'a')) = n := by
  induction n with
  | zero => rfl
  | succ n ih =>
    have h1 : goLen (String.mk (List.replicate (n + 1) 'a')) =
        goLen (String.mk (List.replicate n 'a')) + 1 := by
      simp only [goLen, String.utf8ByteSize, List.replicate_succ, String.utf8ByteSize.go]
      rfl
    rw [h1, ih]

/-- C4 (counterexample): an image whose embedded `ImageMeta` fails its own
validation (a description of 4097 bytes) and whose `ArtifactMeta` is valid is
marshalled without error by `Image.MarshalBSON` and `Image.MarshalBSONValue`: a
document is produced. -/
theorem image_marshal_skips_image_meta :
    longImage.ImageMeta = some ⟨longDescription⟩ ∧
      (ImageMeta.Validate ⟨longDescription⟩).2 ≠ none ∧
      (longImage.MarshalBSON UnwindMap plainCodec).2 = none ∧
      (longImage.MarshalBSON UnwindMap plainCodec).1 ≠ none ∧
      (longImage.MarshalBSONValue UnwindMap plainCodec).2.2 = none ∧
      (longImage.MarshalBSONValue UnwindMap plainCodec).2.1 ≠ none := by
  refine ⟨rfl, ?_, by decide, ?_, by decide, ?_⟩
  · have h : goLen longDescription = 4097 := goLen_replicate 4097
    simp [ImageMeta.Validate, validateImageMeta, checkOptionalLength, byteLength, asError, h]
  · intro h
    have h1 := congrArg Option.isSome h
    revert h1
    decide
  · intro h
    have h1 := congrArg Option.isSome h
    revert h1
    decide

/-- C4 (amended): `Image.MarshalBSON` and `Image.MarshalBSONValue` fail and
produce no document whenever `ArtifactMeta.Validate` returns an error for the
embedded `ArtifactMeta`. -/
theorem image_marshal_fails_on_artifact_meta {U : Type}
    (unwind : Option GoMap → Except GoError (List Pair))
    (codec : Plain U → Option GoError) (img : Image U) (am : ArtifactMeta U) (err : GoError)
    (ham : img.ArtifactMeta = some am) (hv : am.Validate.2 = some err) :
    (img.MarshalBSON unwind codec).1 = none ∧ (img.MarshalBSON unwind codec).2 ≠ none ∧
      (img.MarshalBSONValue unwind codec).2.1 = none ∧
      (img.MarshalBSONValue unwind codec).2.2 ≠ none := by
  have henc : encodeImageField unwind codec (ImageField.artifactMeta (some am)) =
      Except.error err := by
    simp only [encodeImageField]
    rw [marshalBSONValue_eq, hv]
  have hmem : ("meta_artifact", ImageField.artifactMeta (some am)) ∈
      img.DocumentFromStruct := by
    simp [Image.DocumentFromStruct, ham]
  obtain ⟨e1, he1⟩ := encodeElems_error_of_mem (encodeImageField unwind codec)
    img.DocumentFromStruct _ _ err hmem henc
  simp [Image.MarshalBSON, Image.MarshalBSONValue, bsonMarshal, bsonMarshalValue, he1]

/-- Witness of `image_marshal_fails_on_artifact_meta`: an image around the
nameless artifact record is not marshalled. -/
theorem image_marshal_fails_on_artifact_meta_witness :
    (({ longImage with ArtifactMeta := some unnamedMeta } : Image Unit).MarshalBSON
        UnwindMap plainCodec).1 = none ∧
      (({ longImage with ArtifactMeta := some unnamedMeta } : Image Unit).MarshalBSON
        UnwindMap plainCodec).2 ≠ none ∧
      (({ longImage with ArtifactMeta := some unnamedMeta } : Image Unit).MarshalBSONValue
        UnwindMap plainCodec).2.1 = none ∧
      (({ longImage with ArtifactMeta := some unnamedMeta } : Image Unit).MarshalBSONValue
        UnwindMap plainCodec).2.2 ≠ none :=
  image_marshal_fails_on_artifact_meta UnwindMap plainCodec
    { longImage with ArtifactMeta := some unnamedMeta } unnamedMeta
    (GoError.validation [⟨"Name", "required"⟩]) rfl (by decide)

/-! ## Releases list endpoint -/

/-- C8: for every error the store returns, whatever its text, the list endpoint
answers with status 500 and the error message `internal error`; the response is
the same for every store error, so no text of the store error reaches the
body. -/
theorem get_releases_store_error {U : Type} (store : Store U) (r : Request)
    (err : GoError) (h : store (getReleaseFilter r) = Except.error err) :
    (GetReleases store r).status = 500 ∧
      (GetReleases store r).body = Body.error "internal error" ∧
      ∀ (store1 : Store U) (err1 : GoError),
        store1 (getReleaseFilter r) = Except.error err1 →
          GetReleases store1 r = GetReleases store r := by
  refine ⟨?_, ?_, ?_⟩
  · simp [GetReleases, h]
  · simp [GetReleases, h]
  · intro store1 err1 h1
    simp [GetReleases, h, h1]

/-- Witness of `get_releases_store_error`: the store of the test case "ok, filter"
fails when called without a filter, and the endpoint answers 500 with the generic
message. -/
theorem get_releases_store_error_witness :
    (GetReleases fooStore ⟨none⟩).status = 500 ∧
      (GetReleases fooStore ⟨none⟩).body = Body.error "internal error" ∧
      ∀ (store1 : Store Unit) (err1 : GoError),
        store1 (getReleaseFilter ⟨none⟩) = Except.error err1 →
          GetReleases store1 ⟨none⟩ = GetReleases fooStore ⟨none⟩ :=
  get_releases_store_error fooStore ⟨none⟩ (GoError.store "unexpected call") rfl

/-- C9: for every sequence the store returns without error for the filter parsed
from the request (no filter when the `name` parameter is absent, the filter on
that name when it is present; only the store's answer to that filter matters),
the list endpoint answers with status 200 and a body equal to that sequence,
unchanged and in order; for an empty sequence the body is the empty array, which
is neither null nor an error object. -/
theorem get_releases_ok {U : Type} (store : Store U) (r : Request)
    (releases : List (Release U)) (h : store (getReleaseFilter r) = Except.ok releases) :
    (GetReleases store r).status = 200 ∧
      (GetReleases store r).body = Body.releases releases ∧
      (getReleaseFilter r = match r.name with
        | none => none
        | some n => some ⟨n⟩) ∧
      (∀ store1 : Store U, store1 (getReleaseFilter r) = store (getReleaseFilter r) →
        GetReleases store1 r = GetReleases store r) ∧
      (releases = [] → (GetReleases store r).body = Body.releases [] ∧
        (GetReleases store r).body ≠ Body.null ∧
        ∀ msg, (GetReleases store r).body ≠ Body.error msg) := by
  refine ⟨?_, ?_, rfl, ?_, ?_⟩
  · simp [GetReleases, h]
  · simp [GetReleases, h]
  · intro store1 h1
    simp [GetReleases, h1]
  · intro he
    subst he
    simp [GetReleases, h]

/-- Witness of `get_releases_ok`: the test case "ok, filter": the request with
`name=foo` reaches the store with the filter on `foo` and is answered with 200
and the empty array. -/
theorem get_releases_ok_witness :
    (GetReleases fooStore ⟨some "foo"⟩).status = 200 ∧
      (GetReleases fooStore ⟨some "foo"⟩).body = Body.releases [] ∧
      (getReleaseFilter ⟨some "foo"⟩ = match (⟨some "foo"⟩ : Request).name with
        | none => none
        | some n => some ⟨n⟩) ∧
      (∀ store1 : Store Unit,
        store1 (getReleaseFilter ⟨some "foo"⟩) =
            fooStore (getReleaseFilter ⟨some "foo"⟩) →
          GetReleases store1 ⟨some "foo"⟩ = GetReleases fooStore ⟨some "foo"⟩) ∧
      (([] : List (Release Unit)) = [] →
        (GetReleases fooStore ⟨some "foo"⟩).body = Body.releases [] ∧
        (GetReleases fooStore ⟨some "foo"⟩).body ≠ Body.null ∧
        ∀ msg, (GetReleases fooStore ⟨some "foo"⟩).body ≠ Body.error msg) :=
  get_releases_ok fooStore ⟨some "foo"⟩ [] rfl

end Deployments
